import Mathlib

/-!
Verification of the minesweeper solver repository (src/minesweeper_solver.ts).
The board model, the two deterministic inference rules of solveStep, the
random fallback selector, the solving loop and the DOM snapshot parser are
translated into executable Lean definitions, and the specification claims
are settled as theorems about those definitions.
-/

namespace Minesweeper

/-- Cell state, as in the TypeScript interface Cell: revealed, flagged and an
optional numeric value, where -2 encodes a regular mine (hdd_type10) and -1
the clicked mine (hdd_type11). -/
structure Cell where
  revealed : Bool
  flagged : Bool
  value : Option Int
  deriving DecidableEq

/-- Board snapshot, as in the TypeScript interface BoardState: a grid of
cells (modelled as a total function; positions outside the detected grid are
never consulted by the solver), the detected width (columns) and height
(rows), and the gameOver flag. -/
structure BoardState where
  cell : Nat → Nat → Cell
  width : Nat
  height : Nat
  gameOver : Bool

/-- Kind of a move: left click (reveal) or right click (flag), matching the
isRightClick argument of clickCell. -/
inductive ActionKind where
  | Reveal : ActionKind
  | Flag : ActionKind
  deriving DecidableEq

/-- A proposed move at a (row, col) position. -/
structure Action where
  row : Nat
  col : Nat
  kind : ActionKind
  deriving DecidableEq

/-- One candidate neighbor position of the 3 by 3 scan in solveStep
(lines 222-237): the body of the dr/dc loop for one offset, emitting the
position when the bounds check nr >= 0 and nr < height and nc >= 0 and
nc < width passes. -/
def nb (height width : Nat) (nr nc : Int) : List (Nat × Nat) :=
  if 0 ≤ nr ∧ nr < (height : Int) ∧ 0 ≤ nc ∧ nc < (width : Int) then
    [(nr.toNat, nc.toNat)]
  else []

/-- Neighbor enumeration of solveStep (lines 222-237): the dr/dc double loop
over the eight offsets around (row, col) in scan order, skipping the center
and clipping to board bounds. -/
def neighborsOf (height width : Nat) (row col : Nat) : List (Nat × Nat) :=
  nb height width ((row : Int) - 1) ((col : Int) - 1) ++
  nb height width ((row : Int) - 1) (col : Int) ++
  nb height width ((row : Int) - 1) ((col : Int) + 1) ++
  nb height width (row : Int) ((col : Int) - 1) ++
  nb height width (row : Int) ((col : Int) + 1) ++
  nb height width ((row : Int) + 1) ((col : Int) - 1) ++
  nb height width ((row : Int) + 1) (col : Int) ++
  nb height width ((row : Int) + 1) ((col : Int) + 1)

/-- The unopened neighbors of a numbered cell, in scan order: the neighbors
that are neither revealed nor flagged, as collected into the neighbors array
of solveStep (lines 228-231). -/
def unopenedOf (st : BoardState) (row col : Nat) : List (Nat × Nat) :=
  (neighborsOf st.height st.width row col).filter fun p =>
    !(st.cell p.1 p.2).revealed && !(st.cell p.1 p.2).flagged

/-- The flagged-neighbor count of solveStep (lines 232-234). -/
def flaggedCount (st : BoardState) (row col : Nat) : Nat :=
  ((neighborsOf st.height st.width row col).filter fun p =>
    (st.cell p.1 p.2).flagged).length

/-- A record of applied actions: each action together with the board
snapshot fetched right after it was applied. -/
abbrev Trace := List (Action × BoardState)

/-- The collaborator boundary: applyAction is the combined effect of one
clickCell call followed by the getBoardState re-snapshot, and randIdx is the
index Math.floor of Math.random times the candidate count would produce. -/
structure Env where
  applyAction : Action → BoardState → BoardState
  randIdx : Nat → Nat

/-- Rule 1 inner loop of solveStep (lines 242-259): flag each recorded
unopened neighbor, skipping any that the current snapshot shows as already
flagged, re-snapshotting after every click and aborting the whole step
(Except.error) when a snapshot reports game over. -/
def runFlagLoop (env : Env) :
    List (Nat × Nat) → BoardState → Bool → Trace →
      Except Trace (BoardState × Bool × Trace)
  | [], st, taken, tr => Except.ok (st, taken, tr)
  | (nr, nc) :: rest, st, taken, tr =>
    if (st.cell nr nc).flagged = true then
      runFlagLoop env rest st taken tr
    else
      let a : Action := ⟨nr, nc, ActionKind.Flag⟩
      let st' := env.applyAction a st
      if st'.gameOver = true then Except.error (tr ++ [(a, st')])
      else runFlagLoop env rest st' true (tr ++ [(a, st')])

/-- Rule 2 inner loop of solveStep (lines 265-278): reveal each recorded
unopened neighbor with no re-check, re-snapshotting after every click and
aborting when a snapshot reports game over. -/
def runRevealLoop (env : Env) :
    List (Nat × Nat) → BoardState → Bool → Trace →
      Except Trace (BoardState × Bool × Trace)
  | [], st, taken, tr => Except.ok (st, taken, tr)
  | (nr, nc) :: rest, st, taken, tr =>
    let a : Action := ⟨nr, nc, ActionKind.Reveal⟩
    let st' := env.applyAction a st
    if st'.gameOver = true then Except.error (tr ++ [(a, st')])
    else runRevealLoop env rest st' true (tr ++ [(a, st')])

/-- Sequencing of the step computation: stop on an abort, otherwise continue
from the intermediate snapshot, actionTaken flag and trace (the early
return-false on game over in solveStep). -/
def andThen
    (k : BoardState → Bool → Trace → Except Trace (BoardState × Bool × Trace)) :
    Except Trace (BoardState × Bool × Trace) →
      Except Trace (BoardState × Bool × Trace)
  | Except.error tr1 => Except.error tr1
  | Except.ok (st1, taken1, tr1) => k st1 taken1 tr1

/-- Body of the scan of solveStep for one cell (lines 214-279): skip the
cell unless it is revealed with a numeric value other than 0 and the two
mine sentinels; otherwise record its unopened neighbors and flagged count
from the current snapshot and run Rule 1 (lines 240-260) then Rule 2
(lines 262-279). -/
def processCell (env : Env) (row col : Nat) (st : BoardState) (taken : Bool)
    (tr : Trace) : Except Trace (BoardState × Bool × Trace) :=
  let cell := st.cell row col
  match cell.value with
  | none => Except.ok (st, taken, tr)
  | some v =>
    if cell.revealed = false ∨ v = 0 ∨ v = -1 ∨ v = -2 then
      Except.ok (st, taken, tr)
    else
      let ns := unopenedOf st row col
      let f := flaggedCount st row col
      andThen
        (fun st1 taken1 tr1 =>
          if 0 < ns.length ∧ v = (f : Int) then
            runRevealLoop env ns st1 taken1 tr1
          else Except.ok (st1, taken1, tr1))
        (if 0 < ns.length ∧ (ns.length : Int) = v - (f : Int) then
          runFlagLoop env ns st taken tr
        else Except.ok (st, taken, tr))

/-- The row-major scan order of solveStep (lines 212-213). -/
def cellList (height width : Nat) : List (Nat × Nat) :=
  (List.range height).flatMap fun r => (List.range width).map fun c => (r, c)

/-- The full inference pass of solveStep: process every cell in scan order,
threading the evolving snapshot, the actionTaken flag and the trace. -/
def runPass (env : Env) :
    List (Nat × Nat) → BoardState → Bool → Trace →
      Except Trace (BoardState × Bool × Trace)
  | [], st, taken, tr => Except.ok (st, taken, tr)
  | (r, c) :: rest, st, taken, tr =>
    andThen (runPass env rest) (processCell env r c st taken tr)

/-- The hasRevealedNeighbor check of the random fallback (lines 290-302). -/
def hasRevealedNeighbor (st : BoardState) (row col : Nat) : Bool :=
  (neighborsOf st.height st.width row col).any fun p =>
    (st.cell p.1 p.2).revealed

/-- Candidate cells of the random fallback of solveStep (lines 285-306):
unrevealed, unflagged cells with at least one revealed neighbor, in scan
order. -/
def candidatesOf (st : BoardState) : List (Nat × Nat) :=
  (cellList st.height st.width).filter fun p =>
    !(st.cell p.1 p.2).revealed && !(st.cell p.1 p.2).flagged &&
      hasRevealedNeighbor st p.1 p.2

/-- The random selection of solveStep (lines 308-309): some candidate at the
random index when candidates exist, none otherwise. -/
def selectRandom (env : Env) (st : BoardState) : Option (Nat × Nat) :=
  let cands := candidatesOf st
  if 0 < cands.length then
    some (cands.getD (env.randIdx cands.length) (0, 0))
  else none

/-- Continuation of solveStep after the inference pass (lines 283-325): on
an abort return false with the trace so far; otherwise when no action was
taken run the random fallback (Rule 3, lines 283-322) and finally return
the actionTaken flag. -/
def afterPass (env : Env) : Except Trace (BoardState × Bool × Trace) →
    Bool × Trace
  | Except.error tr => (false, tr)
  | Except.ok (st, actionTaken, tr) =>
    if actionTaken = true then (true, tr)
    else
      match selectRandom env st with
      | none => (false, tr)
      | some p =>
        if (env.applyAction ⟨p.1, p.2, ActionKind.Reveal⟩ st).gameOver = true
        then
          (false, tr ++ [(⟨p.1, p.2, ActionKind.Reveal⟩,
            env.applyAction ⟨p.1, p.2, ActionKind.Reveal⟩ st)])
        else
          (true, tr ++ [(⟨p.1, p.2, ActionKind.Reveal⟩,
            env.applyAction ⟨p.1, p.2, ActionKind.Reveal⟩ st)])

/-- The whole of solveStep (lines 198-326), returning the boolean the
TypeScript function returns together with the trace of applied actions and
their post-click snapshots: an immediate false on a game-over snapshot, the
inference pass, and the random fallback when the pass applied nothing. -/
def solveStepT (env : Env) (st0 : BoardState) : Bool × Trace :=
  if st0.gameOver = true then (false, [])
  else afterPass env (runPass env (cellList st0.height st0.width) st0 false [])

/-- The boolean result of solveStep alone. -/
def solveStep (env : Env) (st0 : BoardState) : Bool :=
  (solveStepT env st0).1

/-- The trace the inference pass alone produces on a snapshot, whether or
not it aborts. -/
def passTrace (env : Env) (st : BoardState) : Trace :=
  match runPass env (cellList st.height st.width) st false [] with
  | Except.error tr => tr
  | Except.ok (_, _, tr) => tr

/-- The actions the inference pass emits on a snapshot, in order. -/
def passActions (env : Env) (st : BoardState) : List Action :=
  (passTrace env st).map fun p => p.1

/-- Invariant shape of every stage of solveStep: either it succeeds with the
input trace extended by applied actions none of whose post-click snapshots
were game over, the actionTaken flag becoming true exactly when the stage
applied something, or it aborts with the trace extended by actions of which
some post-click snapshot was game over. -/
def StepSpec (taken : Bool) (tr : Trace)
    (res : Except Trace (BoardState × Bool × Trace)) : Prop :=
  (∃ st' taken' ds, res = Except.ok (st', taken', tr ++ ds) ∧
    (∀ q ∈ ds, q.2.gameOver = false) ∧ taken' = (taken || !ds.isEmpty)) ∨
  (∃ ds, res = Except.error (tr ++ ds) ∧ ∃ q ∈ ds, q.2.gameOver = true)

/-- One iteration of the main loop (lines 354-361) seen from the world: the
boolean solveStep returns and the world state afterwards, which is the last
snapshot the step fetched (or the unchanged world when it fetched none
after an action). -/
def stepWorld (env : Env) (st : BoardState) : Bool × BoardState :=
  ((solveStepT env st).1,
    ((((solveStepT env st).2).getLast?).map (fun q => q.2)).getD st)

/-- The while loop with postfix-decrement counter of the main IIFE
(lines 353-361), counting solveStep invocations: with fuel k remaining,
run one step, stop after it when it returns false, and otherwise continue
with decremented fuel. -/
def loopAux (env : Env) : Nat → BoardState → Nat → Nat
  | 0, _, n => n
  | k + 1, st, n =>
    if (stepWorld env st).1 = true then loopAux env k (stepWorld env st).2 (n + 1)
    else n + 1

/-- Total number of solveStep invocations the main loop performs, starting
from the initial board, with the hard cap of 100 iterations. -/
def gameLoopCount (env : Env) (st : BoardState) : Nat :=
  loopAux env 100 st 0

/-- The world state before the i-th solveStep invocation of an unbounded
run of steps. -/
def worldSeq (env : Env) (st : BoardState) : Nat → BoardState
  | 0 => st
  | i + 1 => (stepWorld env (worldSeq env st i)).2

/-- The boolean the i-th solveStep invocation returns in an unbounded run
of steps. -/
def stepRes (env : Env) (st : BoardState) (i : Nat) : Bool :=
  (stepWorld env (worldSeq env st i)).1

/-- One DOM cell as read by getBoardState (lines 87-118): its parsed
(row, col) coordinates, whether its class list contains hdd_opened, whether
it contains hdd_flag, and the numeric suffix of its hdd_typeN class when
one is present. -/
structure DomCell where
  row : Nat
  col : Nat
  opened : Bool
  flag : Bool
  typ : Option Int

/-- The blank cell used to initialize the board (line 82). -/
def defaultCell : Cell := ⟨false, false, none⟩

/-- Cell construction of getBoardState (lines 94-115): an opened cell is
revealed with value -2 for type 10, -1 for type 11, the type number
otherwise, and 0 when no value class is present; an unopened flagged cell
is flagged; anything else stays blank. -/
def parseCell (d : DomCell) : Cell :=
  if d.opened = true then
    match d.typ with
    | some t =>
      if t = 10 then ⟨true, false, some (-2)⟩
      else if t = 11 then ⟨true, false, some (-1)⟩
      else ⟨true, false, some t⟩
    | none => ⟨true, false, some 0⟩
  else if d.flag = true then ⟨false, true, none⟩
  else defaultCell

/-- The snapshot reader getBoardState (lines 52-126) on the parsed DOM cell
listing: none when no valid cells are found (the thrown error), otherwise
the populated board (the last DOM entry for a position wins, as in the
forEach), the detected dimensions (maximal coordinates plus one) and the
gameOver flag (set when an opened cell carries type 10 or 11). -/
def getBoardState (ds : List DomCell) : Option BoardState :=
  if ds.isEmpty = true then none
  else some
    { cell := fun r c =>
        ((((ds.filter fun d => d.row == r && d.col == c).getLast?).map
          parseCell).getD defaultCell)
      height := ((ds.map fun d => d.row).foldr max 0) + 1
      width := ((ds.map fun d => d.col).foldr max 0) + 1
      gameOver := ds.any fun d =>
        d.opened && (d.typ == some 10 || d.typ == some 11) }

/-- An environment in which a click changes nothing: every snapshot equals
the previous one. -/
def idEnv : Env where
  applyAction := fun _ s => s
  randIdx := fun _ => 0

/-- A well-behaved flagging environment: a flag click flags exactly its
target cell and never reports game over; other clicks change nothing. -/
def flagEnv : Env where
  applyAction := fun a s =>
    if a.kind = ActionKind.Flag then
      { s with
        cell := fun r c =>
          if r = a.row ∧ c = a.col then { s.cell r c with flagged := true }
          else s.cell r c,
        gameOver := false }
    else s
  randIdx := fun _ => 0

/-- A well-behaved revealing environment: a reveal click reveals exactly its
target cell as a 0 and never reports game over; other clicks change
nothing. -/
def revealEnv : Env where
  applyAction := fun a s =>
    if a.kind = ActionKind.Reveal then
      { s with
        cell := fun r c =>
          if r = a.row ∧ c = a.col then ⟨true, false, some 0⟩
          else s.cell r c,
        gameOver := false }
    else s
  randIdx := fun _ => 0

/-- A 2 by 2 board whose top-left cell is revealed with value 1, its
unopened neighbor count 1 equalling value minus flagged count: Rule 1 must
flag the single unopened neighbor (1, 1). -/
def stW1 : BoardState where
  cell := fun r c =>
    if r = 1 ∧ c = 1 then ⟨false, false, none⟩ else ⟨true, false, some 1⟩
  width := 2
  height := 2
  gameOver := false

/-- A 2 by 2 board whose top-left cell is revealed with value 1 and has one
flagged neighbor: Rule 2 must reveal the two remaining unopened
neighbors. -/
def stW2 : BoardState where
  cell := fun r c =>
    if r = 0 ∧ c = 0 then ⟨true, false, some 1⟩
    else if r = 0 ∧ c = 1 then ⟨false, true, none⟩
    else ⟨false, false, none⟩
  width := 2
  height := 2
  gameOver := false

/-- The 3 by 3 board of Scenario A: center revealed with value 0, all 8
neighbors unrevealed and unflagged. -/
def b3 : BoardState where
  cell := fun r c =>
    if r = 1 ∧ c = 1 then ⟨true, false, some 0⟩ else ⟨false, false, none⟩
  width := 3
  height := 3
  gameOver := false

/-- A snapshot already in the game-over condition. -/
def stGO : BoardState where
  cell := fun _ _ => ⟨true, false, some (-1)⟩
  width := 1
  height := 1
  gameOver := true

/-- A 2 by 3 board: (0,0) flagged, (0,1) revealed with value 1 (so Rule 2
fires there with unopened neighbors (0,2), (1,0), (1,1), (1,2)), everything
else unopened. -/
def floodBoard : BoardState where
  cell := fun r c =>
    if r = 0 ∧ c = 0 then ⟨false, true, none⟩
    else if r = 0 ∧ c = 1 then ⟨true, false, some 1⟩
    else ⟨false, false, none⟩
  width := 3
  height := 2
  gameOver := false

/-- An environment with a flood fill: revealing any cell reveals it as a 0,
and revealing (0, 2) additionally reveals (1, 2), the way revealing a
0-valued cell cascades in minesweeper. -/
def floodEnv : Env where
  applyAction := fun a s =>
    if a.kind = ActionKind.Reveal then
      { s with
        cell := fun r c =>
          if (r = a.row ∧ c = a.col) ∨
              (a.row = 0 ∧ a.col = 2 ∧ r = 1 ∧ c = 2) then
            ⟨true, false, some 0⟩
          else s.cell r c,
        gameOver := false }
    else s
  randIdx := fun _ => 0

/-- A 2 by 2 board whose cell (0,1) is revealed with value 3 and all three
of its neighbors unopened: Rule 1 fires with neighbors (0,0), (1,0),
(1,1). -/
def spreadBoard : BoardState where
  cell := fun r c =>
    if r = 0 ∧ c = 1 then ⟨true, false, some 3⟩ else ⟨false, false, none⟩
  width := 2
  height := 2
  gameOver := false

/-- An environment in which flagging (0, 0) also flags (1, 0) (an external
interference), so the Rule 1 loop finds (1, 0) already flagged when its
turn comes and must skip it. -/
def spreadEnv : Env where
  applyAction := fun a s =>
    if a.kind = ActionKind.Flag then
      { s with
        cell := fun r c =>
          if (r = a.row ∧ c = a.col) ∨
              (a.row = 0 ∧ a.col = 0 ∧ r = 1 ∧ c = 0) then
            { s.cell r c with flagged := true }
          else s.cell r c,
        gameOver := false }
    else s
  randIdx := fun _ => 0

/-- A 2 by 2 board with every cell unrevealed and unflagged: no cell has a
revealed neighbor, so the random selector has no candidates. -/
def allHidden : BoardState where
  cell := fun _ _ => ⟨false, false, none⟩
  width := 2
  height := 2
  gameOver := false

/-- A one-cell DOM listing: an opened cell with no value class. -/
def exampleDs : List DomCell := [⟨0, 0, true, false, none⟩]

/-- The board the snapshot reader produces from the one-cell listing. -/
def exBoard : BoardState :=
  (getBoardState exampleDs).getD ⟨fun _ _ => defaultCell, 0, 0, false⟩

theorem mem_nb {height width : Nat} {nr nc : Int} {p : Nat × Nat} :
    p ∈ nb height width nr nc ↔
      (0 ≤ nr ∧ nr < (height : Int) ∧ 0 ≤ nc ∧ nc < (width : Int)) ∧
        (p.1 : Int) = nr ∧ (p.2 : Int) = nc := by
  unfold nb
  split_ifs with h
  · simp only [List.mem_singleton, h, true_and, Prod.ext_iff]
    omega
  · simp [h]

theorem length_nb (height width : Nat) (nr nc : Int) :
    (nb height width nr nc).length =
      if 0 ≤ nr ∧ nr < (height : Int) ∧ 0 ≤ nc ∧ nc < (width : Int) then 1
      else 0 := by
  unfold nb
  split_ifs <;> rfl

/-- Membership characterization of the neighbor enumeration: exactly the
in-bounds positions at Chebyshev distance one from the center. -/
theorem mem_neighborsOf {height width row col pr pc : Nat} :
    (pr, pc) ∈ neighborsOf height width row col ↔
      pr < height ∧ pc < width ∧ pr ≤ row + 1 ∧ row ≤ pr + 1 ∧
        pc ≤ col + 1 ∧ col ≤ pc + 1 ∧ ¬(pr = row ∧ pc = col) := by
  unfold neighborsOf
  simp only [List.mem_append, mem_nb]
  constructor
  · rintro (((((((h | h) | h) | h) | h) | h) | h) | h) <;> omega
  · intro h
    obtain ⟨h1, h2, h3, h4, h5, h6, h7⟩ := h
    rcases Nat.lt_trichotomy pr row with hr | hr | hr <;>
      rcases Nat.lt_trichotomy pc col with hc | hc | hc
    · exact Or.inl (Or.inl (Or.inl (Or.inl (Or.inl (Or.inl (Or.inl (by omega)))))))
    · exact Or.inl (Or.inl (Or.inl (Or.inl (Or.inl (Or.inl (Or.inr (by omega)))))))
    · exact Or.inl (Or.inl (Or.inl (Or.inl (Or.inl (Or.inr (by omega))))))
    · exact Or.inl (Or.inl (Or.inl (Or.inl (Or.inr (by omega)))))
    · exact absurd (And.intro hr hc) h7
    · exact Or.inl (Or.inl (Or.inl (Or.inr (by omega))))
    · exact Or.inl (Or.inl (Or.inr (by omega)))
    · exact Or.inl (Or.inr (by omega))
    · exact Or.inr (by omega)

theorem length_neighborsOf (height width row col : Nat) :
    (neighborsOf height width row col).length =
      (if 0 ≤ (row : Int) - 1 ∧ (row : Int) - 1 < (height : Int) ∧
          0 ≤ (col : Int) - 1 ∧ (col : Int) - 1 < (width : Int) then 1 else 0) +
      (if 0 ≤ (row : Int) - 1 ∧ (row : Int) - 1 < (height : Int) ∧
          0 ≤ (col : Int) ∧ (col : Int) < (width : Int) then 1 else 0) +
      (if 0 ≤ (row : Int) - 1 ∧ (row : Int) - 1 < (height : Int) ∧
          0 ≤ (col : Int) + 1 ∧ (col : Int) + 1 < (width : Int) then 1 else 0) +
      (if 0 ≤ (row : Int) ∧ (row : Int) < (height : Int) ∧
          0 ≤ (col : Int) - 1 ∧ (col : Int) - 1 < (width : Int) then 1 else 0) +
      (if 0 ≤ (row : Int) ∧ (row : Int) < (height : Int) ∧
          0 ≤ (col : Int) + 1 ∧ (col : Int) + 1 < (width : Int) then 1 else 0) +
      (if 0 ≤ (row : Int) + 1 ∧ (row : Int) + 1 < (height : Int) ∧
          0 ≤ (col : Int) - 1 ∧ (col : Int) - 1 < (width : Int) then 1 else 0) +
      (if 0 ≤ (row : Int) + 1 ∧ (row : Int) + 1 < (height : Int) ∧
          0 ≤ (col : Int) ∧ (col : Int) < (width : Int) then 1 else 0) +
      (if 0 ≤ (row : Int) + 1 ∧ (row : Int) + 1 < (height : Int) ∧
          0 ≤ (col : Int) + 1 ∧ (col : Int) + 1 < (width : Int) then 1 else 0) := by
  unfold neighborsOf
  simp only [List.length_append, length_nb]

theorem neighborsOf_length_corner {height width row col : Nat}
    (hh : 2 ≤ height) (hw : 2 ≤ width) (hr : row < height) (hc : col < width)
    (hcorner : (row = 0 ∨ row = height - 1) ∧ (col = 0 ∨ col = width - 1)) :
    (neighborsOf height width row col).length = 3 := by
  rw [length_neighborsOf]
  split_ifs <;> omega

theorem neighborsOf_length_edge {height width row col : Nat}
    (hh : 2 ≤ height) (hw : 2 ≤ width) (hr : row < height) (hc : col < width)
    (hedge : row = 0 ∨ row = height - 1 ∨ col = 0 ∨ col = width - 1)
    (hnc : ¬((row = 0 ∨ row = height - 1) ∧ (col = 0 ∨ col = width - 1))) :
    (neighborsOf height width row col).length = 5 := by
  rw [length_neighborsOf]
  split_ifs <;> omega

theorem neighborsOf_length_interior {height width row col : Nat}
    (hr0 : 0 < row) (hr1 : row + 1 < height) (hc0 : 0 < col)
    (hc1 : col + 1 < width) :
    (neighborsOf height width row col).length = 8 := by
  rw [length_neighborsOf]
  split_ifs <;> omega

theorem neighborsOf_length_le (height width row col : Nat) :
    (neighborsOf height width row col).length ≤ 8 := by
  rw [length_neighborsOf]
  split_ifs <;> omega

theorem nb_nodup (height width : Nat) (nr nc : Int) :
    (nb height width nr nc).Nodup := by
  unfold nb
  split_ifs <;> simp

theorem nb_disjoint {height width : Nat} {nr nc nr' nc' : Int}
    (hne : ¬(nr = nr' ∧ nc = nc')) :
    (nb height width nr nc).Disjoint (nb height width nr' nc') := by
  intro p hp hp'
  rw [mem_nb] at hp hp'
  omega

theorem neighborsOf_nodup (height width row col : Nat) :
    (neighborsOf height width row col).Nodup := by
  unfold neighborsOf
  simp only [List.append_assoc]
  repeat
    refine List.Nodup.append (nb_nodup _ _ _ _) ?_ ?_
  all_goals try exact nb_nodup _ _ _ _
  all_goals try simp only [List.disjoint_append_right]
  all_goals repeat
    first
    | exact nb_disjoint (by omega)
    | constructor

theorem unopenedOf_nodup (st : BoardState) (row col : Nat) :
    (unopenedOf st row col).Nodup :=
  (neighborsOf_nodup st.height st.width row col).filter _

theorem unopenedOf_unflagged {st : BoardState} {row col : Nat} {p : Nat × Nat}
    (hp : p ∈ unopenedOf st row col) : (st.cell p.1 p.2).flagged = false := by
  unfold unopenedOf at hp
  rw [List.mem_filter] at hp
  have := hp.2
  simp only [Bool.and_eq_true, Bool.not_eq_true'] at this
  exact this.2

theorem unopenedOf_unrevealed {st : BoardState} {row col : Nat} {p : Nat × Nat}
    (hp : p ∈ unopenedOf st row col) : (st.cell p.1 p.2).revealed = false := by
  unfold unopenedOf at hp
  rw [List.mem_filter] at hp
  have := hp.2
  simp only [Bool.and_eq_true, Bool.not_eq_true'] at this
  exact this.1

/-- Under an environment in which flag clicks never change the flagged
status of any other cell and never produce a game-over snapshot, the Rule 1
loop flags every recorded neighbor exactly once, skipping none. -/
theorem runFlagLoop_clean (env : Env)
    (h1 : ∀ (a : Action) (s : BoardState) (r c : Nat),
      a.kind = ActionKind.Flag → ¬(r = a.row ∧ c = a.col) →
      ((env.applyAction a s).cell r c).flagged = (s.cell r c).flagged)
    (h2 : ∀ (a : Action) (s : BoardState), a.kind = ActionKind.Flag →
      (env.applyAction a s).gameOver = false) :
    ∀ (ns : List (Nat × Nat)) (st : BoardState) (taken : Bool) (tr : Trace),
      ns.Nodup → (∀ p ∈ ns, (st.cell p.1 p.2).flagged = false) →
      ∃ st' ds, runFlagLoop env ns st taken tr =
          Except.ok (st', taken || !ns.isEmpty, tr ++ ds) ∧
        ds.map (fun q => q.1) =
          ns.map (fun p => ⟨p.1, p.2, ActionKind.Flag⟩) := by
  intro ns
  induction ns with
  | nil =>
    intro st taken tr _ _
    exact ⟨st, [], by simp [runFlagLoop]⟩
  | cons p rest ih =>
    obtain ⟨nr, nc⟩ := p
    intro st taken tr hnd hunf
    have hq : (st.cell nr nc).flagged = false := hunf (nr, nc) (by simp)
    have hgo : (env.applyAction ⟨nr, nc, ActionKind.Flag⟩ st).gameOver = false :=
      h2 _ _ rfl
    have hrest : ∀ q ∈ rest,
        ((env.applyAction ⟨nr, nc, ActionKind.Flag⟩ st).cell q.1 q.2).flagged
          = false := by
      intro q hq2
      have hne : ¬(q.1 = nr ∧ q.2 = nc) := by
        intro hcontra
        have : q = (nr, nc) := Prod.ext hcontra.1 hcontra.2
        rw [this] at hq2
        exact (List.nodup_cons.mp hnd).1 hq2
      rw [h1 _ _ _ _ rfl hne]
      exact hunf q (List.mem_cons_of_mem _ hq2)
    obtain ⟨st', ds, heq, hmap⟩ :=
      ih (env.applyAction ⟨nr, nc, ActionKind.Flag⟩ st) true
        (tr ++ [(⟨nr, nc, ActionKind.Flag⟩,
          env.applyAction ⟨nr, nc, ActionKind.Flag⟩ st)])
        (List.nodup_cons.mp hnd).2 hrest
    refine ⟨st', (⟨nr, nc, ActionKind.Flag⟩,
      env.applyAction ⟨nr, nc, ActionKind.Flag⟩ st) :: ds, ?_, ?_⟩
    · simp [runFlagLoop, hq, hgo, heq, List.append_assoc]
    · simp [hmap]

/-- Under an environment in which reveal clicks never produce a game-over
snapshot, the Rule 2 loop reveals every recorded neighbor exactly once,
with no re-check of its current state. -/
theorem runRevealLoop_clean (env : Env)
    (h2 : ∀ (a : Action) (s : BoardState), a.kind = ActionKind.Reveal →
      (env.applyAction a s).gameOver = false) :
    ∀ (ns : List (Nat × Nat)) (st : BoardState) (taken : Bool) (tr : Trace),
      ∃ st' ds, runRevealLoop env ns st taken tr =
          Except.ok (st', taken || !ns.isEmpty, tr ++ ds) ∧
        ds.map (fun q => q.1) =
          ns.map (fun p => ⟨p.1, p.2, ActionKind.Reveal⟩) := by
  intro ns
  induction ns with
  | nil =>
    intro st taken tr
    exact ⟨st, [], by simp [runRevealLoop]⟩
  | cons p rest ih =>
    obtain ⟨nr, nc⟩ := p
    intro st taken tr
    have hgo : (env.applyAction ⟨nr, nc, ActionKind.Reveal⟩ st).gameOver
        = false := h2 _ _ rfl
    obtain ⟨st', ds, heq, hmap⟩ :=
      ih (env.applyAction ⟨nr, nc, ActionKind.Reveal⟩ st) true
        (tr ++ [(⟨nr, nc, ActionKind.Reveal⟩,
          env.applyAction ⟨nr, nc, ActionKind.Reveal⟩ st)])
    refine ⟨st', (⟨nr, nc, ActionKind.Reveal⟩,
      env.applyAction ⟨nr, nc, ActionKind.Reveal⟩ st) :: ds, ?_, ?_⟩
    · simp [runRevealLoop, hgo, heq, List.append_assoc]
    · simp [hmap]

theorem stepSpec_ok {taken : Bool} {tr : Trace} {st : BoardState} :
    StepSpec taken tr (Except.ok (st, taken, tr)) := by
  left
  exact ⟨st, taken, [], by simp, by simp, by simp⟩

theorem stepSpec_absorb {taken : Bool} {tr ds1 : Trace}
    {res : Except Trace (BoardState × Bool × Trace)}
    (hcl : ∀ q ∈ ds1, q.2.gameOver = false)
    (h : StepSpec (taken || !ds1.isEmpty) (tr ++ ds1) res) :
    StepSpec taken tr res := by
  rcases h with ⟨st', taken', ds2, heq, hcl2, htk⟩ | ⟨ds2, heq, hbad⟩
  · left
    refine ⟨st', taken', ds1 ++ ds2, ?_, ?_, ?_⟩
    · rw [heq, List.append_assoc]
    · intro q hq
      rcases List.mem_append.mp hq with h | h
      exacts [hcl q h, hcl2 q h]
    · rw [htk]
      cases ds1 <;> simp
  · right
    refine ⟨ds1 ++ ds2, ?_, ?_⟩
    · rw [heq, List.append_assoc]
    · rcases hbad with ⟨q, hq, hg⟩
      exact ⟨q, List.mem_append.mpr (Or.inr hq), hg⟩

theorem runFlagLoop_spec (env : Env) :
    ∀ (ns : List (Nat × Nat)) (st : BoardState) (taken : Bool) (tr : Trace),
      StepSpec taken tr (runFlagLoop env ns st taken tr) := by
  intro ns
  induction ns with
  | nil =>
    intro st taken tr
    simpa [runFlagLoop] using (@stepSpec_ok taken tr st)
  | cons p rest ih =>
    obtain ⟨nr, nc⟩ := p
    intro st taken tr
    by_cases hf : (st.cell nr nc).flagged = true
    · simpa [runFlagLoop, hf] using ih st taken tr
    · by_cases hg :
          (env.applyAction ⟨nr, nc, ActionKind.Flag⟩ st).gameOver = true
      · have hbad : StepSpec taken tr (Except.error (tr ++
            [(⟨nr, nc, ActionKind.Flag⟩,
              env.applyAction ⟨nr, nc, ActionKind.Flag⟩ st)])) := by
          right
          refine ⟨[(⟨nr, nc, ActionKind.Flag⟩,
            env.applyAction ⟨nr, nc, ActionKind.Flag⟩ st)], rfl, ?_⟩
          exact ⟨(⟨nr, nc, ActionKind.Flag⟩,
            env.applyAction ⟨nr, nc, ActionKind.Flag⟩ st),
            List.mem_singleton_self _, hg⟩
        simpa [runFlagLoop, hf, hg] using hbad
      · have hg' : (env.applyAction ⟨nr, nc, ActionKind.Flag⟩ st).gameOver
            = false := by
          simpa using hg
        have hcl : ∀ q ∈ ([(⟨nr, nc, ActionKind.Flag⟩,
            env.applyAction ⟨nr, nc, ActionKind.Flag⟩ st)] : Trace),
            q.2.gameOver = false := by
          intro q hq
          rw [List.mem_singleton] at hq
          subst hq
          exact hg'
        have hih := ih (env.applyAction ⟨nr, nc, ActionKind.Flag⟩ st) true
          (tr ++ [(⟨nr, nc, ActionKind.Flag⟩,
            env.applyAction ⟨nr, nc, ActionKind.Flag⟩ st)])
        have habs : StepSpec taken tr
            (runFlagLoop env rest
              (env.applyAction ⟨nr, nc, ActionKind.Flag⟩ st) true
              (tr ++ [(⟨nr, nc, ActionKind.Flag⟩,
                env.applyAction ⟨nr, nc, ActionKind.Flag⟩ st)])) :=
          stepSpec_absorb hcl (by simpa using hih)
        simpa [runFlagLoop, hf, hg] using habs

theorem runRevealLoop_spec (env : Env) :
    ∀ (ns : List (Nat × Nat)) (st : BoardState) (taken : Bool) (tr : Trace),
      StepSpec taken tr (runRevealLoop env ns st taken tr) := by
  intro ns
  induction ns with
  | nil =>
    intro st taken tr
    simpa [runRevealLoop] using (@stepSpec_ok taken tr st)
  | cons p rest ih =>
    obtain ⟨nr, nc⟩ := p
    intro st taken tr
    by_cases hg :
        (env.applyAction ⟨nr, nc, ActionKind.Reveal⟩ st).gameOver = true
    · have hbad : StepSpec taken tr (Except.error (tr ++
          [(⟨nr, nc, ActionKind.Reveal⟩,
            env.applyAction ⟨nr, nc, ActionKind.Reveal⟩ st)])) := by
        right
        refine ⟨[(⟨nr, nc, ActionKind.Reveal⟩,
          env.applyAction ⟨nr, nc, ActionKind.Reveal⟩ st)], rfl, ?_⟩
        exact ⟨(⟨nr, nc, ActionKind.Reveal⟩,
          env.applyAction ⟨nr, nc, ActionKind.Reveal⟩ st),
          List.mem_singleton_self _, hg⟩
      simpa [runRevealLoop, hg] using hbad
    · have hg' : (env.applyAction ⟨nr, nc, ActionKind.Reveal⟩ st).gameOver
          = false := by
        simpa using hg
      have hcl : ∀ q ∈ ([(⟨nr, nc, ActionKind.Reveal⟩,
          env.applyAction ⟨nr, nc, ActionKind.Reveal⟩ st)] : Trace),
          q.2.gameOver = false := by
        intro q hq
        rw [List.mem_singleton] at hq
        subst hq
        exact hg'
      have hih := ih (env.applyAction ⟨nr, nc, ActionKind.Reveal⟩ st) true
        (tr ++ [(⟨nr, nc, ActionKind.Reveal⟩,
          env.applyAction ⟨nr, nc, ActionKind.Reveal⟩ st)])
      have habs : StepSpec taken tr
          (runRevealLoop env rest
            (env.applyAction ⟨nr, nc, ActionKind.Reveal⟩ st) true
            (tr ++ [(⟨nr, nc, ActionKind.Reveal⟩,
              env.applyAction ⟨nr, nc, ActionKind.Reveal⟩ st)])) :=
        stepSpec_absorb hcl (by simpa using hih)
      simpa [runRevealLoop, hg] using habs

theorem stepSpec_andThen {taken : Bool} {tr : Trace}
    {res : Except Trace (BoardState × Bool × Trace)}
    (h : StepSpec taken tr res)
    {k : BoardState → Bool → Trace → Except Trace (BoardState × Bool × Trace)}
    (hk : ∀ st1 taken1 tr1, StepSpec taken1 tr1 (k st1 taken1 tr1)) :
    StepSpec taken tr (andThen k res) := by
  rcases h with ⟨st', taken', ds, heq, hcl, htk⟩ | ⟨ds, heq, hbad⟩
  · rw [heq]
    simp only [andThen]
    subst htk
    exact stepSpec_absorb hcl (hk st' _ _)
  · rw [heq]
    simp only [andThen]
    right
    exact ⟨ds, rfl, hbad⟩

theorem processCell_spec (env : Env) (row col : Nat) (st : BoardState)
    (taken : Bool) (tr : Trace) :
    StepSpec taken tr (processCell env row col st taken tr) := by
  unfold processCell
  dsimp only
  cases hv : (st.cell row col).value with
  | none => exact stepSpec_ok
  | some v =>
    dsimp only
    split_ifs with hguard hr2 hr1 hr1'
    · exact stepSpec_ok
    · exact stepSpec_andThen (runFlagLoop_spec env _ st taken tr)
        (fun st1 taken1 tr1 => runRevealLoop_spec env _ st1 taken1 tr1)
    · exact stepSpec_andThen stepSpec_ok
        (fun st1 taken1 tr1 => runRevealLoop_spec env _ st1 taken1 tr1)
    · exact stepSpec_andThen (runFlagLoop_spec env _ st taken tr)
        (fun st1 taken1 tr1 => stepSpec_ok)
    · exact stepSpec_andThen stepSpec_ok (fun st1 taken1 tr1 => stepSpec_ok)

theorem runPass_spec (env : Env) :
    ∀ (cells : List (Nat × Nat)) (st : BoardState) (taken : Bool)
      (tr : Trace), StepSpec taken tr (runPass env cells st taken tr) := by
  intro cells
  induction cells with
  | nil =>
    intro st taken tr
    simpa [runPass] using (@stepSpec_ok taken tr st)
  | cons p rest ih =>
    obtain ⟨r, c⟩ := p
    intro st taken tr
    have hcomp : StepSpec taken tr
        (andThen (runPass env rest) (processCell env r c st taken tr)) :=
      stepSpec_andThen (processCell_spec env r c st taken tr)
        (fun st1 taken1 tr1 => ih st1 taken1 tr1)
    simpa [runPass] using hcomp

/-- C4 counterexample: on a 3 by 3 board the edge (non-corner) cell at row
0, column 1 has 5 neighbors, not the 4 the claim states. -/
theorem edge_cell_has_five_neighbors_not_four :
    (neighborsOf 3 3 0 1).length ≠ 4 ∧ (neighborsOf 3 3 0 1).length = 5 := by
  decide

/-- C4 (amended): for every board and every in-bounds position, the
neighbor enumeration returns exactly the grid-adjacent positions clipped to
board bounds, yielding 5 neighbors for a cell on a board edge (non-corner)
and 3 neighbors for a cell in a board corner (up to 8 in general). -/
theorem neighbors_clipped_edge_five_corner_three (height width row col : Nat)
    (hh : 2 ≤ height) (hw : 2 ≤ width) (hr : row < height) (hc : col < width) :
    (∀ pr pc, (pr, pc) ∈ neighborsOf height width row col ↔
        pr < height ∧ pc < width ∧ pr ≤ row + 1 ∧ row ≤ pr + 1 ∧
          pc ≤ col + 1 ∧ col ≤ pc + 1 ∧ ¬(pr = row ∧ pc = col)) ∧
    ((row = 0 ∨ row = height - 1 ∨ col = 0 ∨ col = width - 1) →
      ¬((row = 0 ∨ row = height - 1) ∧ (col = 0 ∨ col = width - 1)) →
      (neighborsOf height width row col).length = 5) ∧
    (((row = 0 ∨ row = height - 1) ∧ (col = 0 ∨ col = width - 1)) →
      (neighborsOf height width row col).length = 3) ∧
    (neighborsOf height width row col).length ≤ 8 :=
  ⟨fun _ _ => mem_neighborsOf,
   fun he hnc => neighborsOf_length_edge hh hw hr hc he hnc,
   fun hcor => neighborsOf_length_corner hh hw hr hc hcor,
   neighborsOf_length_le height width row col⟩

theorem neighbors_clipped_edge_five_corner_three_witness :
    (neighborsOf 3 3 0 1).length = 5 ∧ (neighborsOf 3 3 0 0).length = 3 :=
  ⟨(neighbors_clipped_edge_five_corner_three 3 3 0 1 (by decide) (by decide)
      (by decide) (by decide)).2.1 (Or.inl rfl) (by decide),
   (neighbors_clipped_edge_five_corner_three 3 3 0 0 (by decide) (by decide)
      (by decide) (by decide)).2.2.1 (by decide)⟩

/-- C5: on every board with at least two rows and two columns (so that the
corner, edge and interior classifications are the usual ones), a corner
cell has exactly 3 neighbors, an edge (non-corner) cell exactly 5, and an
interior cell exactly 8. -/
theorem neighbor_count_invariant (height width row col : Nat)
    (hh : 2 ≤ height) (hw : 2 ≤ width) (hr : row < height) (hc : col < width) :
    (((row = 0 ∨ row = height - 1) ∧ (col = 0 ∨ col = width - 1)) →
      (neighborsOf height width row col).length = 3) ∧
    ((row = 0 ∨ row = height - 1 ∨ col = 0 ∨ col = width - 1) →
      ¬((row = 0 ∨ row = height - 1) ∧ (col = 0 ∨ col = width - 1)) →
      (neighborsOf height width row col).length = 5) ∧
    ((0 < row ∧ row + 1 < height ∧ 0 < col ∧ col + 1 < width) →
      (neighborsOf height width row col).length = 8) :=
  ⟨fun hcor => neighborsOf_length_corner hh hw hr hc hcor,
   fun he hnc => neighborsOf_length_edge hh hw hr hc he hnc,
   fun hint =>
     neighborsOf_length_interior hint.1 hint.2.1 hint.2.2.1 hint.2.2.2⟩

theorem neighbor_count_invariant_witness :
    (neighborsOf 4 4 0 0).length = 3 ∧ (neighborsOf 4 4 0 1).length = 5 ∧
      (neighborsOf 4 4 1 1).length = 8 :=
  ⟨(neighbor_count_invariant 4 4 0 0 (by decide) (by decide) (by decide)
      (by decide)).1 (by decide),
   (neighbor_count_invariant 4 4 0 1 (by decide) (by decide) (by decide)
      (by decide)).2.1 (Or.inl rfl) (by decide),
   (neighbor_count_invariant 4 4 1 1 (by decide) (by decide) (by decide)
      (by decide)).2.2 (by decide)⟩

/-- C1: for every board and every revealed cell with numeric value v in
1..8, u unopened and f flagged neighbors, if u is positive and u equals v
minus f, the inference pass emits from this cell exactly one Flag action
per unopened neighbor, in order, and no other action from this cell, under
any environment in which a flag click flags only its target cell and never
yields a game-over snapshot (so the skip branch for neighbors flagged
earlier in the pass is never taken). -/
theorem rule1_flags_exactly_unopened (env : Env) (st : BoardState)
    (row col : Nat) (v : Int)
    (hrev : (st.cell row col).revealed = true)
    (hval : (st.cell row col).value = some v)
    (hv1 : 1 ≤ v) (hv8 : v ≤ 8)
    (hu : 0 < (unopenedOf st row col).length)
    (hcond : ((unopenedOf st row col).length : Int)
      = v - (flaggedCount st row col : Int))
    (h1 : ∀ (a : Action) (s : BoardState) (r c : Nat),
      a.kind = ActionKind.Flag → ¬(r = a.row ∧ c = a.col) →
      ((env.applyAction a s).cell r c).flagged = (s.cell r c).flagged)
    (h2 : ∀ (a : Action) (s : BoardState), a.kind = ActionKind.Flag →
      (env.applyAction a s).gameOver = false)
    (taken : Bool) (tr : Trace) :
    ∃ st' ds, processCell env row col st taken tr =
        Except.ok (st', true, tr ++ ds) ∧
      ds.map (fun q => q.1) =
        (unopenedOf st row col).map (fun p => ⟨p.1, p.2, ActionKind.Flag⟩) := by
  obtain ⟨st', ds, heq, hmap⟩ :=
    runFlagLoop_clean env h1 h2 (unopenedOf st row col) st taken tr
      (unopenedOf_nodup st row col) (fun p hp => unopenedOf_unflagged hp)
  have hne : (unopenedOf st row col).isEmpty = false := by
    rcases hL : unopenedOf st row col with _ | ⟨a, l⟩
    · rw [hL] at hu
      simp at hu
    · rfl
  have hguard : ¬((st.cell row col).revealed = false ∨ v = 0 ∨ v = -1 ∨
      v = -2) := by
    rw [hrev]
    push_neg
    refine ⟨by simp, by omega, by omega, by omega⟩
  have hr2 : ¬(0 < (unopenedOf st row col).length ∧
      v = (flaggedCount st row col : Int)) := by
    rintro ⟨-, hveq⟩
    omega
  refine ⟨st', ds, ?_, hmap⟩
  unfold processCell
  dsimp only
  rw [hval]
  dsimp only
  rw [if_neg hguard, if_pos ⟨hu, hcond⟩, heq]
  dsimp only [andThen]
  rw [if_neg hr2, hne]
  simp

theorem rule1_flags_exactly_unopened_witness :
    ∃ st' ds, processCell flagEnv 0 0 stW1 false [] =
        Except.ok (st', true, [] ++ ds) ∧
      ds.map (fun q => q.1) =
        (unopenedOf stW1 0 0).map (fun p => ⟨p.1, p.2, ActionKind.Flag⟩) := by
  refine rule1_flags_exactly_unopened flagEnv stW1 0 0 1 (by decide)
    (by decide) (by decide) (by decide) (by decide) (by decide) ?_ ?_ false []
  · intro a s r c hk hne
    simp only [flagEnv]
    rw [if_pos hk]
    dsimp only
    rw [if_neg hne]
  · intro a s hk
    simp only [flagEnv]
    rw [if_pos hk]

/-- C2: for every board and every revealed cell with numeric value v in
1..8, u unopened and f flagged neighbors, if u is positive and v equals f,
the inference pass emits from this cell exactly one Reveal action per
unopened neighbor, in order, and no other action from this cell, under any
environment in which a reveal click never yields a game-over snapshot. -/
theorem rule2_reveals_exactly_unopened (env : Env) (st : BoardState)
    (row col : Nat) (v : Int)
    (hrev : (st.cell row col).revealed = true)
    (hval : (st.cell row col).value = some v)
    (hv1 : 1 ≤ v) (hv8 : v ≤ 8)
    (hu : 0 < (unopenedOf st row col).length)
    (hcond : v = (flaggedCount st row col : Int))
    (h2 : ∀ (a : Action) (s : BoardState), a.kind = ActionKind.Reveal →
      (env.applyAction a s).gameOver = false)
    (taken : Bool) (tr : Trace) :
    ∃ st' ds, processCell env row col st taken tr =
        Except.ok (st', true, tr ++ ds) ∧
      ds.map (fun q => q.1) =
        (unopenedOf st row col).map
          (fun p => ⟨p.1, p.2, ActionKind.Reveal⟩) := by
  obtain ⟨st', ds, heq, hmap⟩ :=
    runRevealLoop_clean env h2 (unopenedOf st row col) st taken tr
  have hne : (unopenedOf st row col).isEmpty = false := by
    rcases hL : unopenedOf st row col with _ | ⟨a, l⟩
    · rw [hL] at hu
      simp at hu
    · rfl
  have hguard : ¬((st.cell row col).revealed = false ∨ v = 0 ∨ v = -1 ∨
      v = -2) := by
    rw [hrev]
    push_neg
    refine ⟨by simp, by omega, by omega, by omega⟩
  have hr1 : ¬(0 < (unopenedOf st row col).length ∧
      ((unopenedOf st row col).length : Int)
        = v - (flaggedCount st row col : Int)) := by
    rintro ⟨hpos, hlen⟩
    omega
  refine ⟨st', ds, ?_, hmap⟩
  unfold processCell
  dsimp only
  rw [hval]
  dsimp only
  rw [if_neg hguard, if_neg hr1]
  dsimp only [andThen]
  rw [if_pos ⟨hu, hcond⟩, heq, hne]
  simp

theorem rule2_reveals_exactly_unopened_witness :
    ∃ st' ds, processCell revealEnv 0 0 stW2 false [] =
        Except.ok (st', true, [] ++ ds) ∧
      ds.map (fun q => q.1) =
        (unopenedOf stW2 0 0).map
          (fun p => ⟨p.1, p.2, ActionKind.Reveal⟩) := by
  refine rule2_reveals_exactly_unopened revealEnv stW2 0 0 1 (by decide)
    (by decide) (by decide) (by decide) (by decide) (by decide) ?_ false []
  intro a s hk
  simp only [revealEnv]
  rw [if_pos hk]

/-- C3 counterexample: on the 3 by 3 Scenario A board (center revealed with
value 0, all 8 neighbors unrevealed and unflagged) the inference pass emits
no actions at all, not 8 Reveal actions: the scan skips value-0 cells. -/
theorem scenarioA_engine_emits_no_actions :
    passActions idEnv b3 = [] ∧ (passActions idEnv b3).length ≠ 8 :=
  ⟨rfl, by decide⟩

/-- C3 (amended): on the Scenario A board the Inference Engine emits no
actions (a revealed value-0 cell carries no constraint and is skipped); the
step falls through to the Random Move Selector, whose candidate list is
exactly the 8 neighbors of the center, and the step applies one random
reveal and reports an action taken. -/
theorem scenarioA_zero_center_falls_to_random :
    passActions idEnv b3 = [] ∧
    candidatesOf b3 =
      [(0, 0), (0, 1), (0, 2), (1, 0), (1, 2), (2, 0), (2, 1), (2, 2)] ∧
    solveStep idEnv b3 = true :=
  ⟨rfl, rfl, rfl⟩

/-- C10: within one pass, Flag actions are re-checked against the current
snapshot (on spreadBoard, under an environment in which flagging (0,0) as a
side effect also flags (1,0), the Rule 1 loop emits flags only for (0,0)
and (1,1), skipping (1,0)), while Reveal actions are not re-checked: on
floodBoard, revealing (0,2) also reveals (1,2) by a flood fill, yet the
engine still issues a Reveal action for (1,2), a cell that an earlier
action of the same pass had already caused to become revealed. -/
theorem flag_recheck_but_reveal_no_recheck :
    passActions spreadEnv spreadBoard =
      [⟨0, 0, ActionKind.Flag⟩, ⟨1, 1, ActionKind.Flag⟩] ∧
    (floodBoard.cell 1 2).revealed = false ∧
    passActions floodEnv floodBoard =
      [⟨0, 2, ActionKind.Reveal⟩, ⟨1, 0, ActionKind.Reveal⟩,
        ⟨1, 1, ActionKind.Reveal⟩, ⟨1, 2, ActionKind.Reveal⟩] ∧
    ((passTrace floodEnv floodBoard).head?.map
      (fun q => (q.2.cell 1 2).revealed)) = some true :=
  ⟨rfl, rfl, rfl, rfl⟩

theorem mem_cellList {height width r c : Nat} :
    (r, c) ∈ cellList height width ↔ r < height ∧ c < width := by
  unfold cellList
  simp [List.mem_flatMap, List.mem_map, List.mem_range]

/-- C6: every candidate of the Random Move Selector is an in-bounds cell
that is neither revealed nor flagged and has at least one revealed
neighbor; and when no cell of that description exists on the board, the
selector returns no candidate. -/
theorem random_selector_scope (env : Env) (st : BoardState) :
    (∀ p ∈ candidatesOf st,
      (st.cell p.1 p.2).revealed = false ∧ (st.cell p.1 p.2).flagged = false ∧
        ∃ q ∈ neighborsOf st.height st.width p.1 p.2,
          (st.cell q.1 q.2).revealed = true) ∧
    ((∀ r, r < st.height → ∀ c, c < st.width →
        ¬((st.cell r c).revealed = false ∧ (st.cell r c).flagged = false ∧
          ∃ q ∈ neighborsOf st.height st.width r c,
            (st.cell q.1 q.2).revealed = true)) →
      selectRandom env st = none) := by
  constructor
  · intro p hp
    unfold candidatesOf at hp
    rw [List.mem_filter] at hp
    have h := hp.2
    simp only [Bool.and_eq_true, Bool.not_eq_true'] at h
    obtain ⟨⟨hr, hf⟩, hn⟩ := h
    refine ⟨hr, hf, ?_⟩
    unfold hasRevealedNeighbor at hn
    rw [List.any_eq_true] at hn
    obtain ⟨q, hq, hqr⟩ := hn
    exact ⟨q, hq, hqr⟩
  · intro hnone
    have hcand : candidatesOf st = [] := by
      unfold candidatesOf
      rw [List.filter_eq_nil_iff]
      intro p hp
      obtain ⟨r, c⟩ := p
      obtain ⟨hrb, hcb⟩ := mem_cellList.mp hp
      intro hb
      simp only [Bool.and_eq_true, Bool.not_eq_true'] at hb
      obtain ⟨⟨hr, hf⟩, hn⟩ := hb
      unfold hasRevealedNeighbor at hn
      rw [List.any_eq_true] at hn
      exact hnone r hrb c hcb ⟨hr, hf, hn⟩
    unfold selectRandom
    rw [hcand]
    simp

theorem random_selector_scope_witness :
    ((b3.cell 0 0).revealed = false ∧ (b3.cell 0 0).flagged = false ∧
      ∃ q ∈ neighborsOf b3.height b3.width 0 0,
        (b3.cell q.1 q.2).revealed = true) ∧
    selectRandom idEnv allHidden = none :=
  ⟨(random_selector_scope idEnv b3).1 (0, 0) (by decide),
   (random_selector_scope idEnv allHidden).2 (by decide)⟩

/-- C7: runStep (solveStep) returns false immediately with no action
applied whenever the fetched snapshot is game over, and it returns true
exactly when at least one action was applied during the step and no
snapshot taken after an applied action was game over; the result is a
total boolean, not an error path. -/
theorem runStep_boolean_contract (env : Env) (st0 : BoardState) :
    (st0.gameOver = true → solveStepT env st0 = (false, [])) ∧
    (solveStep env st0 = true ↔
      ((solveStepT env st0).2 ≠ [] ∧
        ∀ q ∈ (solveStepT env st0).2, q.2.gameOver = false)) := by
  by_cases hgo : st0.gameOver = true
  · constructor
    · intro _
      simp [solveStepT, hgo]
    · simp [solveStep, solveStepT, hgo]
  · refine ⟨fun h => absurd h hgo, ?_⟩
    rcases runPass_spec env (cellList st0.height st0.width) st0 false [] with
      ⟨st', taken', ds, heq, hcl, htk⟩ | ⟨ds, heq, hbad⟩
    · rw [List.nil_append] at heq
      have htk' : taken' = !ds.isEmpty := by simpa using htk
      by_cases ht : taken' = true
      · have hstep : solveStepT env st0 = (true, ds) := by
          simp [solveStepT, hgo, heq, afterPass, ht]
        have hdne : ds ≠ [] := by
          intro h0
          rw [h0] at htk'
          rw [ht] at htk'
          simp at htk'
        simp only [solveStep, hstep]
        constructor
        · intro _
          exact ⟨hdne, hcl⟩
        · intro _
          trivial
      · have ht' : taken' = false := by simpa using ht
        have hde : ds = [] := by
          rw [ht'] at htk'
          cases hds : ds with
          | nil => rfl
          | cons a l =>
            rw [hds] at htk'
            simp at htk'
        subst hde
        subst ht'
        rcases hsel : selectRandom env st' with _ | p
        · have hstep : solveStepT env st0 = (false, []) := by
            simp [solveStepT, hgo, heq, afterPass, hsel]
          simp only [solveStep, hstep]
          simp
        · by_cases hg :
              (env.applyAction ⟨p.1, p.2, ActionKind.Reveal⟩ st').gameOver
                = true
          · have hstep : solveStepT env st0 = (false,
                [(⟨p.1, p.2, ActionKind.Reveal⟩,
                  env.applyAction ⟨p.1, p.2, ActionKind.Reveal⟩ st')]) := by
              simp [solveStepT, hgo, heq, afterPass, hsel, hg]
            simp only [solveStep, hstep]
            constructor
            · intro h
              simp at h
            · rintro ⟨-, hall⟩
              have hx := hall _ (List.mem_singleton_self _)
              dsimp only at hx
              rw [hx] at hg
              simp at hg
          · have hstep : solveStepT env st0 = (true,
                [(⟨p.1, p.2, ActionKind.Reveal⟩,
                  env.applyAction ⟨p.1, p.2, ActionKind.Reveal⟩ st')]) := by
              simp [solveStepT, hgo, heq, afterPass, hsel, hg]
            simp only [solveStep, hstep]
            constructor
            · intro _
              refine ⟨by simp, ?_⟩
              intro q hq
              rw [List.mem_singleton] at hq
              subst hq
              dsimp only
              simpa using hg
            · intro _
              trivial
    · rw [List.nil_append] at heq
      have hstep : solveStepT env st0 = (false, ds) := by
        simp [solveStepT, hgo, heq, afterPass]
      simp only [solveStep, hstep]
      constructor
      · intro h
        simp at h
      · rintro ⟨-, hall⟩
        obtain ⟨q, hq, hg⟩ := hbad
        have hx := hall q hq
        rw [hx] at hg
        simp at hg

theorem runStep_boolean_contract_witness :
    solveStepT idEnv stGO = (false, []) ∧
    (solveStep idEnv stGO = true ↔
      ((solveStepT idEnv stGO).2 ≠ [] ∧
        ∀ q ∈ (solveStepT idEnv stGO).2, q.2.gameOver = false)) :=
  ⟨(runStep_boolean_contract idEnv stGO).1 rfl,
   (runStep_boolean_contract idEnv stGO).2⟩

theorem loopAux_le (env : Env) :
    ∀ (k : Nat) (st : BoardState) (n : Nat), loopAux env k st n ≤ n + k := by
  intro k
  induction k with
  | zero =>
    intro st n
    simp [loopAux]
  | succ k ih =>
    intro st n
    simp only [loopAux]
    by_cases hb : (stepWorld env st).1 = true
    · rw [if_pos hb]
      calc loopAux env k (stepWorld env st).2 (n + 1) ≤ (n + 1) + k := ih _ _
        _ ≤ n + (k + 1) := by omega
    · rw [if_neg hb]
      omega

theorem worldSeq_shift (env : Env) (st : BoardState) :
    ∀ i, worldSeq env st (i + 1) = worldSeq env (stepWorld env st).2 i := by
  intro i
  induction i with
  | zero => rfl
  | succ i ih =>
    show (stepWorld env (worldSeq env st (i + 1))).2 = _
    rw [ih]
    rfl

theorem loopAux_early (env : Env) :
    ∀ (j k : Nat) (st : BoardState) (n : Nat), j < k →
      (∀ i, i < j → stepRes env st i = true) → stepRes env st j = false →
      loopAux env k st n = n + j + 1 := by
  intro j
  induction j with
  | zero =>
    intro k st n hk hlt hj
    obtain ⟨k', rfl⟩ : ∃ k', k = k' + 1 := ⟨k - 1, by omega⟩
    have hb : (stepWorld env st).1 = false := hj
    simp only [loopAux]
    rw [if_neg (by simp [hb])]
  | succ j ih =>
    intro k st n hk hlt hj
    obtain ⟨k', rfl⟩ : ∃ k', k = k' + 1 := ⟨k - 1, by omega⟩
    have hb : (stepWorld env st).1 = true := hlt 0 (by omega)
    simp only [loopAux]
    rw [if_pos hb]
    have hshift : ∀ i,
        stepRes env (stepWorld env st).2 i = stepRes env st (i + 1) := by
      intro i
      unfold stepRes
      rw [worldSeq_shift]
    rw [ih k' (stepWorld env st).2 (n + 1) (by omega)
      (fun i hi => by rw [hshift]; exact hlt (i + 1) (by omega))
      (by rw [hshift]; exact hj)]
    omega

/-- C8: the game loop terminates: it invokes runStep at most 100 times (the
hard iteration cap), and it stops right after the first invocation that
returns false. -/
theorem game_loop_bounded (env : Env) (st : BoardState) :
    gameLoopCount env st ≤ 100 ∧
    (∀ j, j < 100 → (∀ i, i < j → stepRes env st i = true) →
      stepRes env st j = false → gameLoopCount env st = j + 1) := by
  constructor
  · have h := loopAux_le env 100 st 0
    unfold gameLoopCount
    omega
  · intro j hj hlt hjf
    unfold gameLoopCount
    rw [loopAux_early env j 100 st 0 hj hlt hjf]
    omega

theorem game_loop_bounded_witness :
    gameLoopCount idEnv stGO ≤ 100 ∧ gameLoopCount idEnv stGO = 1 :=
  ⟨(game_loop_bounded idEnv stGO).1,
   (game_loop_bounded idEnv stGO).2 0 (by decide)
     (fun i hi => absurd hi (by omega)) (by decide)⟩

/-- C9: every board the snapshot reader produces satisfies, for every cell,
that the value is set if and only if the cell is revealed and that flagged
and revealed are never both true; a revealed cell whose DOM classes carry
no value class is given value 0, keeping the invariant. -/
theorem snapshot_invariants (ds : List DomCell) (st : BoardState)
    (h : getBoardState ds = some st) (r c : Nat) :
    ((st.cell r c).value ≠ none ↔ (st.cell r c).revealed = true) ∧
    ¬((st.cell r c).flagged = true ∧ (st.cell r c).revealed = true) ∧
    (∀ d : DomCell, d.opened = true → d.typ = none →
      parseCell d = ⟨true, false, some 0⟩) := by
  have hcellinv : ∀ cl : Cell, (cl = defaultCell ∨ ∃ d, cl = parseCell d) →
      ((cl.value ≠ none ↔ cl.revealed = true) ∧
        ¬(cl.flagged = true ∧ cl.revealed = true)) := by
    intro cl hcl
    rcases hcl with rfl | ⟨d, rfl⟩
    · simp [defaultCell]
    · unfold parseCell
      by_cases hop : d.opened = true
      · rw [if_pos hop]
        rcases htyp : d.typ with _ | t
        · simp
        · by_cases h10 : t = 10
          · simp [h10]
          · by_cases h11 : t = 11
            · simp [h10, h11]
            · simp [h10, h11]
      · rw [if_neg hop]
        by_cases hfl : d.flag = true
        · rw [if_pos hfl]
          simp
        · rw [if_neg hfl]
          simp [defaultCell]
  have hparse0 : ∀ d : DomCell, d.opened = true → d.typ = none →
      parseCell d = ⟨true, false, some 0⟩ := by
    intro d hop htyp
    unfold parseCell
    rw [if_pos hop, htyp]
  unfold getBoardState at h
  split_ifs at h with hemp
  injection h with h1
  subst h1
  dsimp only
  refine ⟨?_, ?_, hparse0⟩
  all_goals
    rcases hL : ((ds.filter fun d => d.row == r && d.col == c).getLast?)
      with _ | d
  · rw [hL]
    exact (hcellinv defaultCell (Or.inl rfl)).1
  · rw [hL]
    exact (hcellinv (parseCell d) (Or.inr ⟨d, rfl⟩)).1
  · rw [hL]
    exact (hcellinv defaultCell (Or.inl rfl)).2
  · rw [hL]
    exact (hcellinv (parseCell d) (Or.inr ⟨d, rfl⟩)).2

theorem snapshot_invariants_witness :
    ((exBoard.cell 0 0).value ≠ none ↔ (exBoard.cell 0 0).revealed = true) ∧
    ¬((exBoard.cell 0 0).flagged = true ∧
        (exBoard.cell 0 0).revealed = true) ∧
    (∀ d : DomCell, d.opened = true → d.typ = none →
      parseCell d = ⟨true, false, some 0⟩) :=
  snapshot_invariants exampleDs exBoard rfl 0 0

end Minesweeper
